import Mathlib

/-!
Shallow embedding of the `scoped` crate (`src/lib.rs`): outcome-conditional
deferred execution.  Side-effecting Rust closures are embedded as state
transformers over an explicit state type `σ`; the registries store the boxed
callbacks in registration order; `scoped` runs the scope body, classifies the
outcome with the `Failure` trait and drains the registries.
-/

namespace Scoped

set_option maxHeartbeats 1000000

/-- Embeds `struct DeferCallback<T, F>`: a payload `item` together with the
closure `call_fn` that will consume it at drain time.  The Rust closure
`FnMut(T)` acts by side effect, embedded here as a state transformer
`T → σ → σ`. -/
structure DeferCallback (T σ : Type) where
  item : T
  call_fn : T → σ → σ

/-- The single capability of the boxed `dyn Defer` object
(`impl Defer for DeferCallback`): invoke the stored closure on the stored
payload. -/
def DeferCallback.call (d : DeferCallback T σ) : σ → σ :=
  d.call_fn d.item

/-- Embeds `Deferring`: its field `inner : RefCell<Vec<Box<dyn Defer>>>` is a
vector of boxed deferred callbacks in registration order; each box is
represented by its only capability, `call`.  The dynamic borrow flag of the
`RefCell` is elided here; the flagged model `DeferringRC` below shows the
borrow check of `push` never fails. -/
structure Deferring (σ : Type) where
  inner : List (σ → σ)

/-- Embeds `Deferring::new`. -/
def Deferring.new : Deferring σ := ⟨[]⟩

/-- Embeds `Deferring::push`: box the payload together with its closure and
append the handle to the inner vector.  The returned stable `&mut T` has no
counterpart among pure values; the address-level model `DeferringHeap` below
covers that part of the source. -/
def Deferring.push (r : Deferring σ) (item : T) (closure : T → σ → σ) : Deferring σ :=
  ⟨r.inner ++ [(DeferCallback.mk item closure).call]⟩

/-- Embeds `Deferring::execute`: `mem::replace` takes the inner vector out
(leaving it empty) and every taken entry is called in reverse order.  The
result pairs the emptied registry with the final state. -/
def Deferring.execute (r : Deferring σ) (s : σ) : Deferring σ × σ :=
  let v := r.inner
  (⟨[]⟩, v.reverse.foldl (fun st d => d st) s)

/-- Embeds `struct Guard`: exactly three registries, one per category. -/
structure Guard (σ : Type) where
  on_scope_success : Deferring σ
  on_scope_failure : Deferring σ
  on_scope_exit : Deferring σ

/-- Embeds `Guard::default()`: three empty registries. -/
def Guard.default : Guard σ := ⟨Deferring.new, Deferring.new, Deferring.new⟩

/-- Embeds the method `Guard::on_scope_success` (the `_reg` suffix is needed
because the Lean field accessor already carries the source name). -/
def Guard.on_scope_success_reg (g : Guard σ) (item : T) (dc : T → σ → σ) : Guard σ :=
  { g with on_scope_success := g.on_scope_success.push item dc }

/-- Embeds the method `Guard::on_scope_failure`. -/
def Guard.on_scope_failure_reg (g : Guard σ) (item : T) (dc : T → σ → σ) : Guard σ :=
  { g with on_scope_failure := g.on_scope_failure.push item dc }

/-- Embeds the method `Guard::on_scope_exit`. -/
def Guard.on_scope_exit_reg (g : Guard σ) (item : T) (dc : T → σ → σ) : Guard σ :=
  { g with on_scope_exit := g.on_scope_exit.push item dc }

/-- Embeds `trait Failure`: classify a scope outcome as success or failure. -/
class Failure (R : Type) where
  is_error : R → Bool

/-- Embeds `std::result::Result<T, E>` (Lean has no type of this exact
shape under this name). -/
inductive Result (T E : Type) where
  | Ok : T → Result T E
  | Err : E → Result T E

/-- Embeds `Result::is_err`. -/
def Result.is_err : Result T E → Bool
  | .Ok _ => false
  | .Err _ => true

/-- Embeds `impl<T, E> Failure for Result<T, E>`: `Ok` is success, `Err` is
failure. -/
instance instFailureResult : Failure (Result T E) := ⟨Result.is_err⟩

/-- Embeds `impl<T> Failure for Option<T>`: `Some` is success, `None` is
failure (`is_none`). -/
instance instFailureOption : Failure (Option T) := ⟨Option.isNone⟩

/-- Embeds `pub fn scoped`: build a fresh guard, run the scope body with it,
then drain `on_scope_success` when the outcome is not an error and
`on_scope_failure` otherwise, then always drain `on_scope_exit`, and return
the outcome.  The Rust closure `FnOnce(&mut Guard) -> R` both registers into
the guard and may act on outer state, so it is embedded as a function from
the guard and the state to the updated guard, updated state and outcome. -/
def «scoped» {σ R : Type} [Failure R]
    (scope : Guard σ → σ → Guard σ × σ × R) (s : σ) : σ × R :=
  let guard : Guard σ := Guard.default
  match scope guard s with
  | (guard, s1, ret) =>
    let s2 := if !(Failure.is_error ret) then (guard.on_scope_success.execute s1).2
              else (guard.on_scope_failure.execute s1).2
    let s3 := (guard.on_scope_exit.execute s2).2
    (s3, ret)

/-- Embeds `pub type ScopeResult<E> = Result<(), E>`. -/
abbrev ScopeResult (E : Type) := Result Unit E

/-! Instrumentation for the drain-policy claims: each registered callback
appends one event, tagged with its category and its payload, to a trace. -/

/-- The three registry categories of a `Guard`. -/
inductive Cat where
  | success
  | failure
  | exit
  deriving DecidableEq

/-- A trace of callback invocations: category and payload of each call, in
invocation order. -/
abbrev Trace := List (Cat × Nat)

/-- The instrumented callback: record one invocation event. -/
def emit (c : Cat) (i : Nat) : Trace → Trace := fun tr => tr ++ [(c, i)]

/-- Selects the events or registrations of one category. -/
def hasCat (c : Cat) : Cat × Nat → Bool := fun op => decide (op.1 = c)

/-- One registration step of the instrumented scope body: register payload
`op.2` with the event-recording callback into the registry named by `op.1`. -/
def applyOp (g : Guard Trace) (op : Cat × Nat) : Guard Trace :=
  match op.1 with
  | Cat.success => g.on_scope_success_reg op.2 (emit Cat.success)
  | Cat.failure => g.on_scope_failure_reg op.2 (emit Cat.failure)
  | Cat.exit => g.on_scope_exit_reg op.2 (emit Cat.exit)

/-- The instrumented scope body: perform the registrations `ops` in order
(arbitrarily interleaved across categories), leave the outer state alone and
return `ret`. -/
def regScope (ops : List (Cat × Nat)) (ret : R) :
    Guard Trace → Trace → Guard Trace × Trace × R :=
  fun g s => (ops.foldl applyOp g, s, ret)

/-! Address-level model for the stable-reference guarantee of
`Deferring::push` (`Box::new` plus `extend_lifetime_mut`). -/

/-- Address-level model of `Deferring`: `push` allocates each
`DeferCallback` box at a fresh address (an index into the append-only arena
`heap`, which models the set of live `Box` allocations) and appends only the
handle (the address) to the resizable vector `handles`, exactly as
`Vec<Box<dyn Defer>>` stores pointers, never the entries inline. -/
structure DeferringHeap (T σ : Type) where
  heap : List (DeferCallback T σ)
  handles : List Nat

/-- The empty registry: no allocations, no handles. -/
def DeferringHeap.new : DeferringHeap T σ := ⟨[], []⟩

/-- Address-level `Deferring::push`: allocate the box, append its address to
the vector, and hand the caller the address of the boxed payload — the model
of the returned `&'a mut T`. -/
def DeferringHeap.push (r : DeferringHeap T σ) (item : T) (closure : T → σ → σ) :
    DeferringHeap T σ × Nat :=
  (⟨r.heap ++ [DeferCallback.mk item closure], r.handles ++ [r.heap.length]⟩, r.heap.length)

/-- Read the payload through a returned reference (dereference address `a`). -/
def DeferringHeap.read (r : DeferringHeap T σ) (a : Nat) : Option T :=
  (r.heap[a]?).map DeferCallback.item

/-- Write the payload through a returned reference: overwrite the `item`
field of the box at address `a`. -/
def DeferringHeap.write (r : DeferringHeap T σ) (a : Nat) (v : T) : DeferringHeap T σ :=
  match r.heap[a]? with
  | some d => ⟨r.heap.set a ⟨v, d.call_fn⟩, r.handles⟩
  | none => r

/-- A sequence of later registrations into the same registry. -/
def DeferringHeap.pushMany (r : DeferringHeap T σ) (rest : List (T × (T → σ → σ))) :
    DeferringHeap T σ :=
  rest.foldl (fun q it => (q.push it.1 it.2).1) r

/-! Borrow-flag model for the `RefCell` inside `Deferring`, used to show the
dynamic exclusive-borrow check in `push` never fails. -/

/-- The dynamic borrow state of a `RefCell`. -/
inductive BorrowFlag where
  | free
  | shared (count : Nat)
  | exclusive
  deriving DecidableEq

/-- A `RefCell` holding the inner vector of a registry: the stored value
together with its dynamic borrow flag. -/
structure InnerCell (σ : Type) where
  value : List (σ → σ)
  flag : BorrowFlag

/-- `Deferring` with the `RefCell` borrow flag kept explicit. -/
structure DeferringRC (σ : Type) where
  inner : InnerCell σ

/-- A fresh registry: empty vector, unborrowed cell. -/
def DeferringRC.new : DeferringRC σ := ⟨⟨[], BorrowFlag.free⟩⟩

/-- `Deferring::push` with the `borrow_mut` runtime check explicit: `none`
models the borrow-check panic; otherwise the exclusive borrow is taken for
the push statement and released before the method returns. -/
def DeferringRC.push? (r : DeferringRC σ) (item : T) (closure : T → σ → σ) :
    Option (DeferringRC σ) :=
  match r.inner.flag with
  | BorrowFlag.free =>
      some ⟨⟨r.inner.value ++ [(DeferCallback.mk item closure).call], BorrowFlag.free⟩⟩
  | _ => none

/-- `Guard` over flagged registries. -/
structure GuardRC (σ : Type) where
  on_scope_success : DeferringRC σ
  on_scope_failure : DeferringRC σ
  on_scope_exit : DeferringRC σ

/-- A fresh guard over flagged registries. -/
def GuardRC.default : GuardRC σ := ⟨DeferringRC.new, DeferringRC.new, DeferringRC.new⟩

/-- One registration through the guard, dispatched to the registry of the
requested category (the three methods `on_scope_success`,
`on_scope_failure`, `on_scope_exit`). -/
def GuardRC.register? (g : GuardRC σ) (c : Cat) (item : T) (dc : T → σ → σ) :
    Option (GuardRC σ) :=
  match c with
  | Cat.success => (g.on_scope_success.push? item dc).map
      (fun d => { g with on_scope_success := d })
  | Cat.failure => (g.on_scope_failure.push? item dc).map
      (fun d => { g with on_scope_failure := d })
  | Cat.exit => (g.on_scope_exit.push? item dc).map
      (fun d => { g with on_scope_exit := d })

/-- A whole sequence of registrations performed by a scope body, each one a
category, a payload and a callback; `none` as soon as one registration
fails. -/
def GuardRC.registerAll? (g : GuardRC σ) (ops : List (Cat × T × (T → σ → σ))) :
    Option (GuardRC σ) :=
  ops.foldlM (fun g op => g.register? op.1 op.2.1 op.2.2) g

/-- All three cells of a guard are unborrowed. -/
def GuardRC.freeFlags (g : GuardRC σ) : Prop :=
  g.on_scope_success.inner.flag = BorrowFlag.free ∧
  g.on_scope_failure.inner.flag = BorrowFlag.free ∧
  g.on_scope_exit.inner.flag = BorrowFlag.free

/-! Helper lemmas. -/

/-- Folding append-of-singleton over a list appends the list. -/
theorem foldl_append_singleton (l acc : List α) :
    l.foldl (fun a e => a ++ [e]) acc = acc ++ l := by
  induction l generalizing acc with
  | nil => simp
  | cons x xs ih => simp [List.foldl_cons, ih]

/-- Running the entries of an event-recording registry from the last one to
the first yields the initial state followed by the events in reverse
registration order. -/
theorem foldr_emit (l : List (Cat × Nat)) (s : Trace) :
    List.foldr (fun x y => x y) s (l.map (fun op => emit op.1 op.2))
      = s ++ l.reverse := by
  induction l with
  | nil => simp
  | cons op rest ih => simp [ih, emit]

/-- After the instrumented registrations, the success registry holds exactly
the event-recording callbacks of the success-category operations, appended in
registration order. -/
theorem applyOps_success_inner (ops : List (Cat × Nat)) (g : Guard Trace) :
    (ops.foldl applyOp g).on_scope_success.inner
      = g.on_scope_success.inner
        ++ (ops.filter (hasCat Cat.success)).map (fun op => emit op.1 op.2) := by
  induction ops generalizing g with
  | nil => simp
  | cons op rest ih =>
    obtain ⟨c, i⟩ := op
    cases c <;>
      simp [List.foldl_cons, ih, applyOp, hasCat, Guard.on_scope_success_reg,
        Guard.on_scope_failure_reg, Guard.on_scope_exit_reg, Deferring.push,
        DeferCallback.call, emit, List.filter_cons]

/-- After the instrumented registrations, the failure registry holds exactly
the event-recording callbacks of the failure-category operations. -/
theorem applyOps_failure_inner (ops : List (Cat × Nat)) (g : Guard Trace) :
    (ops.foldl applyOp g).on_scope_failure.inner
      = g.on_scope_failure.inner
        ++ (ops.filter (hasCat Cat.failure)).map (fun op => emit op.1 op.2) := by
  induction ops generalizing g with
  | nil => simp
  | cons op rest ih =>
    obtain ⟨c, i⟩ := op
    cases c <;>
      simp [List.foldl_cons, ih, applyOp, hasCat, Guard.on_scope_success_reg,
        Guard.on_scope_failure_reg, Guard.on_scope_exit_reg, Deferring.push,
        DeferCallback.call, emit, List.filter_cons]

/-- After the instrumented registrations, the exit registry holds exactly the
event-recording callbacks of the exit-category operations. -/
theorem applyOps_exit_inner (ops : List (Cat × Nat)) (g : Guard Trace) :
    (ops.foldl applyOp g).on_scope_exit.inner
      = g.on_scope_exit.inner
        ++ (ops.filter (hasCat Cat.exit)).map (fun op => emit op.1 op.2) := by
  induction ops generalizing g with
  | nil => simp
  | cons op rest ih =>
    obtain ⟨c, i⟩ := op
    cases c <;>
      simp [List.foldl_cons, ih, applyOp, hasCat, Guard.on_scope_success_reg,
        Guard.on_scope_failure_reg, Guard.on_scope_exit_reg, Deferring.push,
        DeferCallback.call, emit, List.filter_cons]

/-- The full invocation trace produced by `scoped` on the instrumented scope
body: the conditionally drained registry (failure when the outcome is an
error, success otherwise) in reverse registration order, followed by the exit
registry in reverse registration order. -/
theorem scoped_trace (ops : List (Cat × Nat)) {R : Type} [Failure R] (ret : R) :
    («scoped» (regScope ops ret) []).1
      = (if Failure.is_error ret then (ops.filter (hasCat Cat.failure)).reverse
         else (ops.filter (hasCat Cat.success)).reverse)
        ++ (ops.filter (hasCat Cat.exit)).reverse := by
  cases h : Failure.is_error ret <;>
    simp [«scoped», regScope, h, Deferring.execute, applyOps_success_inner,
      applyOps_failure_inner, applyOps_exit_inner, Guard.default, Deferring.new,
      foldr_emit]

/-- Filtering a reversed single-category selection by a different category
yields nothing. -/
theorem filter_hasCat_reverse_ne (ops : List (Cat × Nat)) (c d : Cat) (h : c ≠ d) :
    ((ops.filter (hasCat c)).reverse).filter (hasCat d) = [] := by
  apply List.filter_eq_nil_iff.mpr
  intro op hop
  rw [List.mem_reverse] at hop
  have h1 : hasCat c op = true := List.of_mem_filter hop
  simp only [hasCat, decide_eq_true_eq] at h1
  simp only [hasCat, decide_eq_true_eq]
  intro h2
  exact h (h1.symm.trans h2)

/-- Filtering a reversed single-category selection by its own category keeps
everything. -/
theorem filter_hasCat_reverse_self (ops : List (Cat × Nat)) (c : Cat) :
    ((ops.filter (hasCat c)).reverse).filter (hasCat c)
      = (ops.filter (hasCat c)).reverse := by
  apply List.filter_eq_self.mpr
  intro op hop
  rw [List.mem_reverse] at hop
  exact List.of_mem_filter hop

/-- C2: on every normal completion `scoped` drains the exit registry,
regardless of the outcome, and every callback of the conditionally drained
registry runs before any exit callback: the trace is the conditional drain
followed by the exit drain. -/
theorem scoped_exit_always_and_last (ops : List (Cat × Nat)) {R : Type} [Failure R]
    (ret : R) :
    («scoped» (regScope ops ret) []).1
      = (if Failure.is_error ret then (ops.filter (hasCat Cat.failure)).reverse
         else (ops.filter (hasCat Cat.success)).reverse)
        ++ (ops.filter (hasCat Cat.exit)).reverse :=
  scoped_trace ops ret

/-- C1: for every normally completing scope body, `scoped` drains exactly one
of the success and failure registries: the failure callbacks appear in the
trace exactly when the outcome classifies as an error, the success callbacks
exactly when it does not — never both, never neither. -/
theorem scoped_exclusive_branch (ops : List (Cat × Nat)) {R : Type} [Failure R]
    (ret : R) :
    ((«scoped» (regScope ops ret) []).1.filter (hasCat Cat.failure)
        = if Failure.is_error ret then (ops.filter (hasCat Cat.failure)).reverse else [])
      ∧ ((«scoped» (regScope ops ret) []).1.filter (hasCat Cat.success)
        = if Failure.is_error ret then [] else (ops.filter (hasCat Cat.success)).reverse) := by
  rw [scoped_trace]
  cases h : Failure.is_error ret <;>
    simp [h, List.filter_append,
      filter_hasCat_reverse_ne ops Cat.success Cat.failure (by decide),
      filter_hasCat_reverse_ne ops Cat.exit Cat.failure (by decide),
      filter_hasCat_reverse_ne ops Cat.failure Cat.success (by decide),
      filter_hasCat_reverse_ne ops Cat.exit Cat.success (by decide),
      filter_hasCat_reverse_self ops Cat.success,
      filter_hasCat_reverse_self ops Cat.failure]

/-- Folding the registrations of a list of deferred callbacks appends their
boxed calls to the inner vector in registration order. -/
theorem pushAll_inner {T σ : Type} (ds : List (DeferCallback T σ)) (r : Deferring σ) :
    (ds.foldl (fun q d => q.push d.item d.call_fn) r).inner
      = r.inner ++ ds.map DeferCallback.call := by
  induction ds generalizing r with
  | nil => simp
  | cons d rest ih =>
    rw [List.foldl_cons, ih]
    simp [Deferring.push, DeferCallback.call]

/-- Registering naturals with the trace-recording callback appends the
corresponding recording entries in registration order. -/
theorem pushAll_nat_inner (ps : List Nat) (r : Deferring (List Nat)) :
    (ps.foldl (fun q p => q.push p (fun x tr => tr ++ [x])) r).inner
      = r.inner ++ ps.map (fun p tr => tr ++ [p]) := by
  induction ps generalizing r with
  | nil => simp
  | cons p rest ih =>
    rw [List.foldl_cons, ih]
    simp [Deferring.push, DeferCallback.call]

/-- Running list-append entries from the last one to the first appends the
recorded elements in reverse order. -/
theorem foldr_append_singleton {α : Type} (l s : List α) :
    List.foldr (fun x y => x y) s (l.map (fun a tr => tr ++ [a])) = s ++ l.reverse := by
  induction l with
  | nil => simp
  | cons a rest ih => simp [ih]

/-- C3: draining a registry built from any sequence of registrations invokes
each registered callback on its own payload in exactly reverse registration
order; instantiated with recording callbacks, the drain trace of payloads
`ps` is exactly `ps.reverse`, so each entry runs exactly once. -/
theorem deferring_execute_reverse_order {T σ : Type} (ds : List (DeferCallback T σ)) (s : σ) :
    ((ds.foldl (fun q d => q.push d.item d.call_fn) Deferring.new).execute s).2
        = ds.reverse.foldl (fun st d => d.call_fn d.item st) s
      ∧ ∀ ps : List Nat,
        ((ps.foldl (fun q p => q.push p (fun x tr => tr ++ [x]))
            (Deferring.new : Deferring (List Nat))).execute []).2
          = ps.reverse := by
  constructor
  · simp [Deferring.execute, pushAll_inner, Deferring.new, List.foldl_reverse,
      List.foldr_map, DeferCallback.call]
  · intro ps
    simp [Deferring.execute, pushAll_nat_inner, Deferring.new, foldr_append_singleton]

/-- C4: the value returned by `scoped` is exactly the value returned by the
scope body, whatever guard and state updates the body performed. -/
theorem scoped_pass_through {σ R : Type} [Failure R]
    (scope : Guard σ → σ → Guard σ × σ × R) (s : σ) :
    («scoped» scope s).2 = (scope Guard.default s).2.2 := by
  rcases h : scope Guard.default s with ⟨g, s1, ret⟩
  simp [«scoped», h]

/-- C6: the built-in classifications are total and match the reference
definitions: a `Result` is an error exactly when it is the `Err` variant, an
`Option` exactly when it is `none`. -/
theorem failure_classification_total :
    (∀ (T E : Type) (r : Result T E), Failure.is_error r = true ↔ ∃ e, r = Result.Err e)
      ∧ ∀ (T : Type) (o : Option T), Failure.is_error o = true ↔ o = none := by
  constructor
  · intro T E r
    cases r <;> simp [Failure.is_error, Result.is_err]
  · intro T o
    cases o <;> simp [Failure.is_error]

/-- C7: draining an empty registry performs zero callback invocations and
leaves the state untouched, and a drain leaves the registry empty, so a
second drain performs no work. -/
theorem deferring_drain_empty_idempotent :
    (∀ (σ : Type) (s : σ), (Deferring.new : Deferring σ).execute s = (Deferring.new, s))
      ∧ ∀ (σ : Type) (r : Deferring σ) (s : σ),
        (r.execute s).1.execute (r.execute s).2 = ((r.execute s).1, (r.execute s).2) := by
  constructor
  · intro σ s; rfl
  · intro σ r s; rfl

/-- C9: each of the three registration methods appends exactly one entry to
the end of its own registry, increasing its length by one, and leaves the
other two registries unchanged. -/
theorem guard_registration_frame {σ T : Type} (g : Guard σ) (item : T) (dc : T → σ → σ) :
    ((g.on_scope_success_reg item dc).on_scope_success.inner
        = g.on_scope_success.inner ++ [(DeferCallback.mk item dc).call]
      ∧ (g.on_scope_success_reg item dc).on_scope_success.inner.length
        = g.on_scope_success.inner.length + 1
      ∧ (g.on_scope_success_reg item dc).on_scope_failure = g.on_scope_failure
      ∧ (g.on_scope_success_reg item dc).on_scope_exit = g.on_scope_exit)
    ∧ ((g.on_scope_failure_reg item dc).on_scope_failure.inner
        = g.on_scope_failure.inner ++ [(DeferCallback.mk item dc).call]
      ∧ (g.on_scope_failure_reg item dc).on_scope_failure.inner.length
        = g.on_scope_failure.inner.length + 1
      ∧ (g.on_scope_failure_reg item dc).on_scope_success = g.on_scope_success
      ∧ (g.on_scope_failure_reg item dc).on_scope_exit = g.on_scope_exit)
    ∧ ((g.on_scope_exit_reg item dc).on_scope_exit.inner
        = g.on_scope_exit.inner ++ [(DeferCallback.mk item dc).call]
      ∧ (g.on_scope_exit_reg item dc).on_scope_exit.inner.length
        = g.on_scope_exit.inner.length + 1
      ∧ (g.on_scope_exit_reg item dc).on_scope_success = g.on_scope_success
      ∧ (g.on_scope_exit_reg item dc).on_scope_failure = g.on_scope_failure) := by
  refine ⟨⟨rfl, ?_, rfl, rfl⟩, ⟨rfl, ?_, rfl, rfl⟩, ⟨rfl, ?_, rfl, rfl⟩⟩ <;>
    simp [Guard.on_scope_success_reg, Guard.on_scope_failure_reg,
      Guard.on_scope_exit_reg, Deferring.push]

/-- A later registration into the same registry does not change what an
existing address dereferences to. -/
theorem heap_push_read_lt {T σ : Type} (r : DeferringHeap T σ) (it : T) (cl : T → σ → σ)
    (a : Nat) (h : a < r.heap.length) : ((r.push it cl).1).read a = r.read a := by
  simp [DeferringHeap.push, DeferringHeap.read, List.getElem?_append_left h]

/-- Any number of later registrations into the same registry does not change
what an existing address dereferences to. -/
theorem heap_pushMany_read_stable {T σ : Type} (rest : List (T × (T → σ → σ)))
    (r : DeferringHeap T σ) (a : Nat) (h : a < r.heap.length) :
    (r.pushMany rest).read a = r.read a := by
  induction rest generalizing r with
  | nil => rfl
  | cons it rest ih =>
    have h1 : a < ((r.push it.1 it.2).1).heap.length := by
      simp [DeferringHeap.push]
      omega
    calc (r.pushMany (it :: rest)).read a
        = ((r.push it.1 it.2).1.pushMany rest).read a := rfl
      _ = ((r.push it.1 it.2).1).read a := ih _ h1
      _ = r.read a := heap_push_read_lt r it.1 it.2 a h

/-- C5: the reference returned by a registration stays valid and consistent
for the rest of the scope: however many further registrations follow, reading
through the returned address still yields the registered payload, and a write
through it is still visible afterwards — later registrations only grow the
handle vector and never move or invalidate the individually allocated
entry. -/
theorem push_stable_reference {T σ : Type} (r : DeferringHeap T σ) (item : T)
    (closure : T → σ → σ) (rest : List (T × (T → σ → σ))) :
    ((r.push item closure).1.pushMany rest).read (r.push item closure).2 = some item
      ∧ ∀ v : T,
        (((r.push item closure).1.write (r.push item closure).2 v).pushMany rest).read
            (r.push item closure).2 = some v := by
  have hlen : ((r.push item closure).1).heap.length = r.heap.length + 1 := by
    simp [DeferringHeap.push]
  have hget : ((r.push item closure).1).heap[(r.push item closure).2]?
      = some (DeferCallback.mk item closure) := by
    simp [DeferringHeap.push, List.getElem?_concat_length]
  constructor
  · rw [heap_pushMany_read_stable rest _ _ (by rw [hlen]; exact Nat.lt_succ_self _)]
    simp [DeferringHeap.read, hget]
  · intro v
    have hwlen : (((r.push item closure).1).write (r.push item closure).2 v).heap.length
        = r.heap.length + 1 := by
      simp [DeferringHeap.write, hget, hlen]
    rw [heap_pushMany_read_stable rest _ _ (by rw [hwlen]; exact Nat.lt_succ_self _)]
    simp [DeferringHeap.write, hget, DeferringHeap.read]
    rw [List.getElem?_set_self (by rw [hlen]; exact Nat.lt_succ_self _)]
    exact ⟨DeferCallback.mk v closure, rfl, rfl⟩

/-- On an unborrowed guard, one registration succeeds and leaves all three
cells unborrowed again. -/
theorem register?_free {σ T : Type} (g : GuardRC σ) (hg : g.freeFlags) (c : Cat)
    (item : T) (dc : T → σ → σ) :
    ∃ g2, g.register? c item dc = some g2 ∧ g2.freeFlags := by
  obtain ⟨h1, h2, h3⟩ := hg
  cases c <;>
    simp [GuardRC.register?, DeferringRC.push?, h1, h2, h3, GuardRC.freeFlags]

/-- Any sequence of registrations on an unborrowed guard succeeds and leaves
all three cells unborrowed. -/
theorem registerAll?_free {σ T : Type} (ops : List (Cat × T × (T → σ → σ)))
    (g : GuardRC σ) (hg : g.freeFlags) :
    ∃ g2, g.registerAll? ops = some g2 ∧ g2.freeFlags := by
  induction ops generalizing g with
  | nil => exact ⟨g, rfl, hg⟩
  | cons op rest ih =>
    obtain ⟨g1, h1, hf1⟩ := register?_free g hg op.1 op.2.1 op.2.2
    obtain ⟨g2, h2, hf2⟩ := ih g1 hf1
    refine ⟨g2, ?_, hf2⟩
    show (op :: rest).foldlM (fun g op => g.register? op.1 op.2.1 op.2.2) g = some g2
    rw [List.foldlM_cons, h1]
    simpa [GuardRC.registerAll?] using h2

/-- C8: every registration call of a scope succeeds: whatever sequence of
payloads and callbacks the scope body registers through the three guard
methods, every dynamic exclusive-borrow check taken by `push` finds the cell
unborrowed, so no registration ever fails. -/
theorem guard_registration_never_fails {σ T : Type} (ops : List (Cat × T × (T → σ → σ))) :
    ((GuardRC.default : GuardRC σ).registerAll? ops).isSome = true := by
  obtain ⟨g2, hg2, -⟩ := registerAll?_free ops GuardRC.default ⟨rfl, rfl, rfl⟩
  rw [hg2]
  rfl

/-- C10: `scoped` is deterministic — as a pure function it returns the same
value and produces the same drain behavior on equal inputs — and which
registries are drained depends only on the classification of the outcome:
two scope bodies performing the same registrations and state updates whose
outcomes classify alike produce the same final state. -/
theorem scoped_deterministic :
    (∀ (σ R : Type) [Failure R] (scope : Guard σ → σ → Guard σ × σ × R) (s : σ),
        «scoped» scope s = «scoped» scope s)
      ∧ ∀ (σ R1 R2 : Type) [Failure R1] [Failure R2]
          (f : Guard σ → σ → Guard σ × σ) (r1 : R1) (r2 : R2) (s : σ),
          Failure.is_error r1 = Failure.is_error r2 →
          («scoped» (fun g st => ((f g st).1, (f g st).2, r1)) s).1
            = («scoped» (fun g st => ((f g st).1, (f g st).2, r2)) s).1 := by
  constructor
  · intro σ R _ scope s
    rfl
  · intro σ R1 R2 i1 i2 f r1 r2 s h
    simp [«scoped», h]

/-- Witness for C10 at concrete inputs: outcomes `some 1` and `some true`
classify alike, and the two runs produce the same final state. -/
theorem scoped_deterministic_witness :
    Failure.is_error (some 1 : Option Nat) = Failure.is_error (some true : Option Bool)
      ∧ («scoped» (fun (g : Guard Nat) (st : Nat) => (g, st, (some 1 : Option Nat))) 0).1
        = («scoped» (fun (g : Guard Nat) (st : Nat) => (g, st, (some true : Option Bool))) 0).1 :=
  ⟨rfl,
   scoped_deterministic.2 Nat (Option Nat) (Option Bool)
     (fun g st => (g, st)) (some 1) (some true) 0 rfl⟩

end Scoped
